import Mathlib

set_option linter.unnecessarySimpa false

/-!
Shallow embedding of the chronos scheduling library (Go).

Go `time.Time` values are modelled as normalized civil date-times
(year, month, day, nanoseconds within the day).  Go's `time.Date`
normalization (month overflow folded into the year, day overflow folded
into the following/previous months) is implemented by `dateNorm`;
`AddDate` and `Add` are defined through it exactly as the Go standard
library documents them.  `Before` and `Sub` compare/subtract absolute
nanosecond counts obtained from the proleptic Gregorian day number.

Each scheduler variant (`Periodic`, `Monthly`, `Yearly`) mirrors the
struct of the same (lower-case) name in `chronos.go`, and its `next`
mirrors the corresponding method; the catch-up `for` loop of `next` is
embedded as the fuel-indexed `catchUp` (`none` models a loop that has
not terminated within the given fuel; the Go loop genuinely diverges
for a non-positive step, so `next` is `Option`-valued).  A single `now`
parameter stands for the wall-clock reads of one call.  `Job` mirrors
the dispatcher struct: only the fields its `run`/`NTimes` logic uses
are carried (the task callable is abstracted into the Boolean
"was invoked" result of `run`).
-/

namespace Chronos

/-- Nanoseconds in one day. -/
def nsPerDay : Int := 86400000000000

/-- Leap year in the proleptic Gregorian calendar (Go `isLeap`). -/
def isLeap (y : Int) : Bool := y % 4 == 0 && (y % 100 != 0 || y % 400 == 0)

/-- Cumulative days before month `m` in a non-leap year (Go `daysBefore`). -/
def daysBefore (m : Int) : Int :=
  if m ≤ 1 then 0
  else if m ≤ 2 then 31
  else if m ≤ 3 then 59
  else if m ≤ 4 then 90
  else if m ≤ 5 then 120
  else if m ≤ 6 then 151
  else if m ≤ 7 then 181
  else if m ≤ 8 then 212
  else if m ≤ 9 then 243
  else if m ≤ 10 then 273
  else if m ≤ 11 then 304
  else 334

/-- Days before month `m`, leap-adjusted. -/
def monthOffset (leap : Bool) (m : Int) : Int :=
  daysBefore m + (if leap ∧ 2 < m then 1 else 0)

/-- Number of days in month `m` of a (non-)leap year (Go `daysIn`). -/
def dim (leap : Bool) (m : Int) : Int :=
  if m = 2 then (if leap then 29 else 28)
  else if m = 4 ∨ m = 6 ∨ m = 9 ∨ m = 11 then 30
  else 31

/-- Leap years in `[1, y]`. -/
def leapsUpTo (y : Int) : Int := y / 4 - y / 100 + y / 400

/-- Day number (from day 0 = January 1 of year 1) of January 1 of year `y`. -/
def yearStart (y : Int) : Int := 365 * (y - 1) + leapsUpTo (y - 1)

/-- Fold an arbitrary month number into the year (Go `norm(year, m, 12)`). -/
def monthNorm (y m : Int) : Int × Int :=
  (y + (m - 1) / 12, (m - 1) % 12 + 1)

/-- Absolute day number of the (possibly denormalized) civil triple:
month is folded into the year, the day count is extended linearly. -/
def absDaysExt (y m d : Int) : Int :=
  let p := monthNorm y m
  yearStart p.1 + monthOffset (isLeap p.1) p.2 + (d - 1)

/-- Fold day overflow forward into the following months (one `for`
iteration of Go's date normalization per unit of fuel). -/
def dayFwd : Nat → Int → Int → Int → Int × Int × Int
  | 0, y, m, d => (y, m, d)
  | fuel+1, y, m, d =>
    if dim (isLeap y) m < d then
      if m = 12 then dayFwd fuel (y + 1) 1 (d - dim (isLeap y) 12)
      else dayFwd fuel y (m + 1) (d - dim (isLeap y) m)
    else (y, m, d)

/-- Fold day underflow backward into the preceding months. -/
def dayBwd : Nat → Int → Int → Int → Int × Int × Int
  | 0, y, m, d => (y, m, d)
  | fuel+1, y, m, d =>
    if d < 1 then
      if m = 1 then dayBwd fuel (y - 1) 12 (d + dim (isLeap (y - 1)) 12)
      else dayBwd fuel y (m - 1) (d + dim (isLeap y) (m - 1))
    else (y, m, d)

/-- A Go `time.Time`: normalized civil fields plus nanoseconds within
the day. -/
structure GoTime where
  year : Int
  month : Int
  day : Int
  tod : Int
deriving DecidableEq, BEq

/-- Go `time.Date` field normalization: normalize the month, then fold
day overflow/underflow into adjacent months. -/
def dateNorm (y m d tod : Int) : GoTime :=
  let p := monthNorm y m
  let q := dayFwd d.toNat p.1 p.2 d
  let r := dayBwd (1 - q.2.2).toNat q.1 q.2.1 q.2.2
  { year := r.1, month := r.2.1, day := r.2.2, tod := tod }

/-- Absolute day number of a `GoTime`. -/
def GoTime.absDays (t : GoTime) : Int := absDaysExt t.year t.month t.day

/-- Absolute nanosecond count of a `GoTime` (Go's internal seconds). -/
def GoTime.absNs (t : GoTime) : Int := t.absDays * nsPerDay + t.tod

/-- Go `Time.Before`. -/
def GoTime.before (t u : GoTime) : Bool := decide (t.absNs < u.absNs)

/-- Go `Time.Sub`, in nanoseconds. -/
def GoTime.sub (t u : GoTime) : Int := t.absNs - u.absNs

/-- Go's zero `time.Time` is January 1, year 1, 00:00:00 UTC. -/
def GoTime.isZero (t : GoTime) : Bool := t == ⟨1, 1, 1, 0⟩

/-- Go `Time.AddDate`: add to the civil fields, then renormalize. -/
def GoTime.addDate (t : GoTime) (years months days : Int) : GoTime :=
  dateNorm (t.year + years) (t.month + months) (t.day + days) t.tod

/-- Go `Time.Add`: add a duration (nanoseconds), carrying whole days
into the date. -/
def GoTime.add (t : GoTime) (k : Int) : GoTime :=
  let total := t.tod + k
  dateNorm t.year t.month (t.day + total / nsPerDay) (total % nsPerDay)

/-- Midnight of a given civil date (helper for concrete instances). -/
def mkTime (y m d : Int) : GoTime := ⟨y, m, d, 0⟩

/-! ## The catch-up loop shared by the three `next` methods

Go:
```
next := s.getCandidate()
for next.Before(time.Now()) {
    if !s.started { break }
    s.n++
    next = s.getCandidate()
}
```
`catchUp cand now started fuel n` returns the final value of `s.n`, or
`none` when the loop has not exited within `fuel` iterations. -/
def catchUp (cand : Int → GoTime) (now : GoTime) (started : Bool) :
    Nat → Int → Option Int
  | 0, _ => none
  | fuel+1, n =>
    if (cand n).before now then
      if started then catchUp cand now started fuel (n + 1) else some n
    else some n

/-! ## periodic -/

/-- The `periodic` struct: `ammount` already holds
`time.Duration(ammount*int(unit))` in nanoseconds, as in the Go
constructor. -/
structure Periodic where
  start : GoTime
  endT : GoTime
  started : Bool
  ammount : Int
  n : Int
deriving DecidableEq

/-- `newPeriodic`; the `now` argument stands for the `time.Now()` used
to default a zero start. -/
def newPeriodic (now start endT : GoTime) (ammount unit : Int)
    (notInmediately : Bool) : Except String Periodic :=
  if ammount = 0 ∨ unit = 0 then .error "0 is not a valid period"
  else
    .ok { start := if start.isZero then now else start
          endT := endT
          started := notInmediately
          ammount := ammount * unit
          n := if notInmediately then (1 : Int) else 0 }

/-- `periodic.getCandidate`. -/
def Periodic.getCandidate (s : Periodic) : GoTime :=
  s.start.add (s.n * s.ammount)

/-- `periodic.next`, with `now` the wall clock of this call and `fuel`
bounding the catch-up loop. -/
def Periodic.next (fuel : Nat) (s : Periodic) (now : GoTime) :
    Option (Periodic × Bool × Int) :=
  match catchUp (fun k => s.start.add (k * s.ammount)) now s.started fuel s.n with
  | none => none
  | some n1 =>
    let s1 : Periodic := { s with n := n1, started := true }
    let nxt := s1.getCandidate
    some (s1, s.endT.isZero || nxt.before s.endT, nxt.sub now)

/-! ## monthly -/

/-- The `monthly` struct. -/
structure Monthly where
  start : GoTime
  endT : GoTime
  started : Bool
  ammount : Int
  n : Int
deriving DecidableEq

/-- `newMonthly`. -/
def newMonthly (now start endT : GoTime) (ammount : Int)
    (notInmediately : Bool) : Except String Monthly :=
  if ammount = 0 then .error "0 months is not a valid period"
  else
    .ok { start := if start.isZero then now else start
          endT := endT
          started := notInmediately
          ammount := ammount
          n := if notInmediately then (1 : Int) else 0 }

/-- `monthly.getCandidate`: step `n*ammount` calendar months from
`start`; if `AddDate` normalized the day into the next month, subtract
the spilled days. -/
def Monthly.getCandidate (s : Monthly) : GoTime :=
  let res := s.start.addDate 0 (s.n * s.ammount) 0
  if res.day ≠ s.start.day then res.addDate 0 0 (-res.day) else res

/-- `monthly.next`. -/
def Monthly.next (fuel : Nat) (s : Monthly) (now : GoTime) :
    Option (Monthly × Bool × Int) :=
  match catchUp (fun k => Monthly.getCandidate { s with n := k }) now
      s.started fuel s.n with
  | none => none
  | some n1 =>
    let s1 : Monthly := { s with n := n1, started := true }
    let nxt := s1.getCandidate
    some (s1, s.endT.isZero || nxt.before s.endT, nxt.sub now)

/-! ## yearly -/

/-- The `yearly` struct. -/
structure Yearly where
  start : GoTime
  endT : GoTime
  started : Bool
  ammount : Int
  n : Int
deriving DecidableEq

/-- `newYearly`. -/
def newYearly (now start endT : GoTime) (ammount : Int)
    (notInmediately : Bool) : Except String Yearly :=
  if ammount = 0 then .error "0 years is not a valid period"
  else
    .ok { start := if start.isZero then now else start
          endT := endT
          started := notInmediately
          ammount := ammount
          n := if notInmediately then (1 : Int) else 0 }

/-- `yearly.getCandidate`. -/
def Yearly.getCandidate (s : Yearly) : GoTime :=
  let res := s.start.addDate (s.n * s.ammount) 0 0
  if res.day ≠ s.start.day then res.addDate 0 0 (-res.day) else res

/-- `yearly.next`. -/
def Yearly.next (fuel : Nat) (s : Yearly) (now : GoTime) :
    Option (Yearly × Bool × Int) :=
  match catchUp (fun k => Yearly.getCandidate { s with n := k }) now
      s.started fuel s.n with
  | none => none
  | some n1 =>
    let s1 : Yearly := { s with n := n1, started := true }
    let nxt := s1.getCandidate
    some (s1, s.endT.isZero || nxt.before s.endT, nxt.sub now)

/-! ## Job (dispatcher state relevant to `run`/`NTimes`) -/

/-- Dispatcher bookkeeping: `times` is the execution ceiling (`-1`
means no limit), `n` the number of executions so far. -/
structure Job where
  times : Int
  n : Int
deriving DecidableEq

/-- `Schedule(f)`: fresh job, unlimited runs. -/
def Schedule : Job := { times := -1, n := 0 }

/-- `Job.NTimes`. -/
def Job.NTimes (j : Job) (m : Int) : Job := { j with times := m }

/-- `Job.Once`. -/
def Job.Once (j : Job) : Job := j.NTimes 1

/-- `Job.Twice`. -/
def Job.Twice (j : Job) : Job := j.NTimes 2

/-- `Job.run`: under the mutex, execute the task only when under the
ceiling (or unlimited); the Boolean records whether the task ran. -/
def Job.run (j : Job) : Job × Bool :=
  if j.times = -1 ∨ j.n < j.times then ({ j with n := j.n + 1 }, true)
  else (j, false)

/-- Iterate `run` `k` times, counting actual task invocations. -/
def Job.runSeq (j : Job) : Nat → Job × Nat
  | 0 => (j, 0)
  | k+1 =>
    let p := j.run
    let q := p.1.runSeq k
    (q.1, (if p.2 then 1 else 0) + q.2)

end Chronos

/-! ## Calendar arithmetic lemmas -/

namespace Chronos

lemma isLeap_iff (y : Int) :
    isLeap y = true ↔ (y % 4 = 0 ∧ (y % 100 ≠ 0 ∨ y % 400 = 0)) := by
  simp [isLeap]

lemma yearStart_succ (y : Int) :
    yearStart (y + 1) = yearStart y + 365 + (if isLeap y = true then 1 else 0) := by
  have hy : y + 1 - 1 = y := by ring
  by_cases h : isLeap y = true
  · rw [isLeap_iff] at h
    obtain ⟨h4, h100 | h400⟩ := h
    · simp only [yearStart, leapsUpTo, hy, isLeap_iff, h4, h100,
        if_true, true_and, ne_eq, not_false_eq_true, true_or]
      omega
    · simp only [yearStart, leapsUpTo, hy, isLeap_iff, h4, h400, if_true,
        true_and, or_true]
      omega
  · rw [isLeap_iff] at h
    push_neg at h
    by_cases h4 : y % 4 = 0
    · obtain ⟨h100, h400⟩ := h h4
      simp only [yearStart, leapsUpTo, hy, isLeap_iff, h4, h100, h400,
        true_and, ne_eq, not_true_eq_false, false_or, if_false]
      omega
    · simp only [yearStart, leapsUpTo, hy, isLeap_iff, h4, false_and, if_false]
      omega

lemma monthOffset_one (l : Bool) : monthOffset l 1 = 0 := by
  cases l <;> decide

lemma monthOffset_succ (l : Bool) (m : Int) (h1 : 1 ≤ m) (h2 : m ≤ 11) :
    monthOffset l (m + 1) = monthOffset l m + dim l m := by
  interval_cases m <;> cases l <;> decide

lemma monthOffset_twelve (l : Bool) :
    monthOffset l 12 + dim l 12 = 365 + (if l = true then 1 else 0) := by
  cases l <;> decide

lemma dim_bounds (l : Bool) (m : Int) : 28 ≤ dim l m ∧ dim l m ≤ 31 := by
  unfold dim
  split
  · cases l <;> simp
  · split <;> simp

lemma monthNorm_self (y m : Int) (h1 : 1 ≤ m) (h2 : m ≤ 12) :
    monthNorm y m = (y, m) := by
  unfold monthNorm
  have e1 : (m - 1) / 12 = 0 := by omega
  have e2 : (m - 1) % 12 = m - 1 := by omega
  rw [e1, e2]
  simp

lemma monthNorm_snd_bounds (y m : Int) :
    1 ≤ (monthNorm y m).2 ∧ (monthNorm y m).2 ≤ 12 := by
  unfold monthNorm
  simp only
  omega

lemma absDaysExt_norm (y m d : Int) (h1 : 1 ≤ m) (h2 : m ≤ 12) :
    absDaysExt y m d = yearStart y + monthOffset (isLeap y) m + (d - 1) := by
  unfold absDaysExt
  rw [monthNorm_self y m h1 h2]

end Chronos

namespace Chronos

lemma dayFwd_spec : ∀ (fuel : Nat) (y m d : Int), 1 ≤ m → m ≤ 12 →
    absDaysExt (dayFwd fuel y m d).1 (dayFwd fuel y m d).2.1
      (dayFwd fuel y m d).2.2 = absDaysExt y m d ∧
    1 ≤ (dayFwd fuel y m d).2.1 ∧ (dayFwd fuel y m d).2.1 ≤ 12 := by
  intro fuel
  induction fuel with
  | zero => intro y m d h1 h2; exact ⟨rfl, h1, h2⟩
  | succ f ih =>
    intro y m d h1 h2
    by_cases hc : dim (isLeap y) m < d
    · by_cases h12 : m = 12
      · subst h12
        simp only [dayFwd, hc, if_true, if_pos rfl]
        have := ih (y + 1) 1 (d - dim (isLeap y) 12) (by norm_num) (by norm_num)
        refine ⟨?_, this.2⟩
        rw [this.1]
        rw [absDaysExt_norm _ _ _ (by norm_num) (by norm_num),
            absDaysExt_norm _ _ _ (by norm_num) (by norm_num),
            yearStart_succ, monthOffset_one]
        have h12off := monthOffset_twelve (isLeap y)
        omega
      · simp only [dayFwd, hc, if_true, if_neg h12]
        have hm11 : m ≤ 11 := by omega
        have := ih y (m + 1) (d - dim (isLeap y) m) (by omega) (by omega)
        refine ⟨?_, this.2⟩
        rw [this.1]
        rw [absDaysExt_norm _ _ _ h1 h2,
            absDaysExt_norm _ _ _ (by omega) (by omega),
            monthOffset_succ _ _ h1 hm11]
        ring
    · simp only [dayFwd, hc, if_false]
      exact ⟨by simp, h1, h2⟩

lemma dayBwd_spec : ∀ (fuel : Nat) (y m d : Int), 1 ≤ m → m ≤ 12 →
    absDaysExt (dayBwd fuel y m d).1 (dayBwd fuel y m d).2.1
      (dayBwd fuel y m d).2.2 = absDaysExt y m d ∧
    1 ≤ (dayBwd fuel y m d).2.1 ∧ (dayBwd fuel y m d).2.1 ≤ 12 := by
  intro fuel
  induction fuel with
  | zero => intro y m d h1 h2; exact ⟨rfl, h1, h2⟩
  | succ f ih =>
    intro y m d h1 h2
    by_cases hc : d < 1
    · by_cases h01 : m = 1
      · subst h01
        simp only [dayBwd, hc, if_true, if_pos rfl]
        have := ih (y - 1) 12 (d + dim (isLeap (y - 1)) 12) (by norm_num) (by norm_num)
        refine ⟨?_, this.2⟩
        rw [this.1]
        rw [absDaysExt_norm _ _ _ (by norm_num) (by norm_num),
            absDaysExt_norm _ _ _ (by norm_num) (by norm_num),
            monthOffset_one]
        have hys : yearStart (y - 1 + 1) =
            yearStart (y - 1) + 365 + (if isLeap (y - 1) = true then 1 else 0) :=
          yearStart_succ (y - 1)
        have hy1 : y - 1 + 1 = y := by ring
        rw [hy1] at hys
        have h12off := monthOffset_twelve (isLeap (y - 1))
        omega
      · simp only [dayBwd, hc, if_true, if_neg h01]
        have := ih y (m - 1) (d + dim (isLeap y) (m - 1)) (by omega) (by omega)
        refine ⟨?_, this.2⟩
        rw [this.1]
        rw [absDaysExt_norm _ _ _ h1 h2,
            absDaysExt_norm _ _ _ (by omega) (by omega)]
        have hoff : monthOffset (isLeap y) (m - 1 + 1) =
            monthOffset (isLeap y) (m - 1) + dim (isLeap y) (m - 1) :=
          monthOffset_succ _ _ (by omega) (by omega)
        have hm1 : m - 1 + 1 = m := by ring
        rw [hm1] at hoff
        omega
    · simp only [dayBwd, hc, if_false]
      exact ⟨by simp, h1, h2⟩

lemma absDaysExt_monthNorm (y m d : Int) :
    absDaysExt (monthNorm y m).1 (monthNorm y m).2 d = absDaysExt y m d := by
  have hb := monthNorm_snd_bounds y m
  rw [absDaysExt_norm _ _ _ hb.1 hb.2]
  simp [absDaysExt]

lemma dateNorm_absNs (y m d tod : Int) :
    (dateNorm y m d tod).absNs = absDaysExt y m d * nsPerDay + tod := by
  unfold dateNorm GoTime.absNs GoTime.absDays
  simp only
  have hb := monthNorm_snd_bounds y m
  have hf := dayFwd_spec d.toNat (monthNorm y m).1 (monthNorm y m).2 d hb.1 hb.2
  have hw := dayBwd_spec (1 - (dayFwd d.toNat (monthNorm y m).1 (monthNorm y m).2 d).2.2).toNat
    (dayFwd d.toNat (monthNorm y m).1 (monthNorm y m).2 d).1
    (dayFwd d.toNat (monthNorm y m).1 (monthNorm y m).2 d).2.1
    (dayFwd d.toNat (monthNorm y m).1 (monthNorm y m).2 d).2.2 hf.2.1 hf.2.2
  rw [hw.1, hf.1, absDaysExt_monthNorm]

lemma absDaysExt_linear (y m d k : Int) :
    absDaysExt y m (d + k) = absDaysExt y m d + k := by
  unfold absDaysExt
  ring

lemma absNs_add (t : GoTime) (k : Int) : (t.add k).absNs = t.absNs + k := by
  unfold GoTime.add
  rw [dateNorm_absNs, absDaysExt_linear]
  unfold GoTime.absNs GoTime.absDays
  simp only [nsPerDay]
  omega

end Chronos

namespace Chronos

lemma catchUp_spec {cand : Int → GoTime} {now : GoTime} {started : Bool} :
    ∀ (fuel : Nat) (n n1 : Int), catchUp cand now started fuel n = some n1 →
      (started = false → n1 = n) ∧ n ≤ n1 ∧
      (started = true → (cand n1).before now = false) ∧
      (∀ k, n ≤ k → k < n1 → (cand k).before now = true) := by
  intro fuel
  induction fuel with
  | zero => intro n n1 h; simp [catchUp] at h
  | succ f ih =>
    intro n n1 h
    simp only [catchUp] at h
    by_cases hb : (cand n).before now = true
    · rw [if_pos hb] at h
      by_cases hs : started = true
      · rw [if_pos hs] at h
        obtain ⟨h1, h2, h3, h4⟩ := ih (n + 1) n1 h
        have hns : started = false → n1 = n := by
          intro hc
          rw [hc] at hs
          cases hs
        refine ⟨hns, by omega, fun _ => h3 hs, ?_⟩
        intro k hk1 hk2
        rcases eq_or_lt_of_le hk1 with rfl | hlt
        · exact hb
        · exact h4 k (by omega) hk2
      · rw [if_neg hs] at h
        obtain rfl : n = n1 := by exact Option.some.inj h
        exact ⟨fun _ => rfl, le_refl n, fun hc => absurd hc hs,
               fun k hk1 hk2 => absurd (lt_of_le_of_lt hk1 hk2) (lt_irrefl n)⟩
    · rw [if_neg hb] at h
      obtain rfl : n = n1 := by exact Option.some.inj h
      refine ⟨fun _ => rfl, le_refl n, fun _ => by simpa using hb,
              fun k hk1 hk2 => absurd (lt_of_le_of_lt hk1 hk2) (lt_irrefl n)⟩

lemma periodicNext_some {fuel : Nat} {s : Periodic} {now : GoTime}
    {s1 : Periodic} {hm : Bool} {w : Int}
    (h : Periodic.next fuel s now = some (s1, hm, w)) :
    catchUp (fun k => s.start.add (k * s.ammount)) now s.started fuel s.n
        = some s1.n ∧
      s1.start = s.start ∧ s1.endT = s.endT ∧ s1.ammount = s.ammount ∧
      s1.started = true ∧
      hm = (s.endT.isZero || s1.getCandidate.before s.endT) ∧
      w = s1.getCandidate.sub now := by
  unfold Periodic.next at h
  cases hc : catchUp (fun k => s.start.add (k * s.ammount)) now s.started fuel s.n with
  | none => rw [hc] at h; cases h
  | some n1 =>
    rw [hc] at h
    simp only [Option.some.injEq, Prod.mk.injEq] at h
    obtain ⟨hs1, hhm, hw⟩ := h
    subst hs1
    refine ⟨?_, rfl, rfl, rfl, rfl, hhm.symm, hw.symm⟩
    simpa using hc

lemma monthlyNext_some {fuel : Nat} {s : Monthly} {now : GoTime}
    {s1 : Monthly} {hm : Bool} {w : Int}
    (h : Monthly.next fuel s now = some (s1, hm, w)) :
    catchUp (fun k => Monthly.getCandidate { s with n := k }) now s.started
        fuel s.n = some s1.n ∧
      s1.start = s.start ∧ s1.endT = s.endT ∧ s1.ammount = s.ammount ∧
      s1.started = true ∧
      hm = (s.endT.isZero || s1.getCandidate.before s.endT) ∧
      w = s1.getCandidate.sub now := by
  unfold Monthly.next at h
  cases hc : catchUp (fun k => Monthly.getCandidate { s with n := k }) now
      s.started fuel s.n with
  | none => rw [hc] at h; cases h
  | some n1 =>
    rw [hc] at h
    simp only [Option.some.injEq, Prod.mk.injEq] at h
    obtain ⟨hs1, hhm, hw⟩ := h
    subst hs1
    refine ⟨?_, rfl, rfl, rfl, rfl, hhm.symm, hw.symm⟩
    simpa using hc

lemma yearlyNext_some {fuel : Nat} {s : Yearly} {now : GoTime}
    {s1 : Yearly} {hm : Bool} {w : Int}
    (h : Yearly.next fuel s now = some (s1, hm, w)) :
    catchUp (fun k => Yearly.getCandidate { s with n := k }) now s.started
        fuel s.n = some s1.n ∧
      s1.start = s.start ∧ s1.endT = s.endT ∧ s1.ammount = s.ammount ∧
      s1.started = true ∧
      hm = (s.endT.isZero || s1.getCandidate.before s.endT) ∧
      w = s1.getCandidate.sub now := by
  unfold Yearly.next at h
  cases hc : catchUp (fun k => Yearly.getCandidate { s with n := k }) now
      s.started fuel s.n with
  | none => rw [hc] at h; cases h
  | some n1 =>
    rw [hc] at h
    simp only [Option.some.injEq, Prod.mk.injEq] at h
    obtain ⟨hs1, hhm, hw⟩ := h
    subst hs1
    refine ⟨?_, rfl, rfl, rfl, rfl, hhm.symm, hw.symm⟩
    simpa using hc

end Chronos

namespace Chronos

lemma dayFwd_stop (fuel : Nat) (y m d : Int) (h : ¬ dim (isLeap y) m < d) :
    dayFwd fuel y m d = (y, m, d) := by
  cases fuel with
  | zero => rfl
  | succ f => simp [dayFwd, h]

lemma dayBwd_stop (fuel : Nat) (y m d : Int) (h : ¬ d < 1) :
    dayBwd fuel y m d = (y, m, d) := by
  cases fuel with
  | zero => rfl
  | succ f => simp [dayBwd, h]

/-- A denormalized day within the valid range of its (normalized) month
passes through `dateNorm` unchanged. -/
lemma dateNorm_valid (y m d tod : Int) (h1 : 1 ≤ m) (h2 : m ≤ 12)
    (hd1 : 1 ≤ d) (hd2 : d ≤ dim (isLeap y) m) :
    dateNorm y m d tod = ⟨y, m, d, tod⟩ := by
  unfold dateNorm
  rw [monthNorm_self y m h1 h2]
  simp only
  rw [dayFwd_stop _ _ _ _ (by omega)]
  simp only
  rw [dayBwd_stop _ _ _ _ (by omega)]

/-- A day that overflows its (normalized) month by at most 28 days is
folded into the following month. -/
lemma dateNorm_overflow (y m d tod : Int) (h1 : 1 ≤ m) (h2 : m ≤ 12)
    (hd1 : dim (isLeap y) m < d) (hd2 : d ≤ dim (isLeap y) m + 28) :
    dateNorm y m d tod =
      if m = 12 then ⟨y + 1, 1, d - dim (isLeap y) 12, tod⟩
      else ⟨y, m + 1, d - dim (isLeap y) m, tod⟩ := by
  have hdimb := dim_bounds (isLeap y) m
  have hdpos : 1 ≤ d := by omega
  obtain ⟨f, hf⟩ : ∃ f, d.toNat = f + 1 := ⟨d.toNat - 1, by omega⟩
  unfold dateNorm
  rw [monthNorm_self y m h1 h2]
  simp only [hf]
  by_cases h12 : m = 12
  · subst h12
    simp only [dayFwd, hd1, if_true, if_pos rfl]
    have hstop : ¬ dim (isLeap (y + 1)) 1 < d - dim (isLeap y) 12 := by
      have := dim_bounds (isLeap (y + 1)) 1
      omega
    rw [dayFwd_stop _ _ _ _ hstop]
    simp only
    rw [dayBwd_stop _ _ _ _ (by omega)]
  · simp only [dayFwd, hd1, if_true, if_neg h12]
    have hstop : ¬ dim (isLeap y) (m + 1) < d - dim (isLeap y) m := by
      have := dim_bounds (isLeap y) (m + 1)
      omega
    rw [dayFwd_stop _ _ _ _ hstop]
    simp only
    rw [dayBwd_stop _ _ _ _ (by omega)]

/-- Day `0` of a (normalized) month is the last day of the preceding
month. -/
lemma dateNorm_day0 (y m tod : Int) (h1 : 1 ≤ m) (h2 : m ≤ 12) :
    dateNorm y m 0 tod =
      if m = 1 then ⟨y - 1, 12, dim (isLeap (y - 1)) 12, tod⟩
      else ⟨y, m - 1, dim (isLeap y) (m - 1), tod⟩ := by
  unfold dateNorm
  rw [monthNorm_self y m h1 h2]
  simp only
  rw [dayFwd_stop _ _ _ _ (by have := dim_bounds (isLeap y) m; omega)]
  simp only
  have h1nat : ((1 : Int) - 0).toNat = 1 := by norm_num
  rw [h1nat]
  by_cases h01 : m = 1
  · subst h01
    simp only [dayBwd, if_pos rfl]
    norm_num
  · simp only [dayBwd, if_neg h01]
    norm_num

/-! ## Job bookkeeping lemmas -/

lemma Job.run_times (j : Job) : j.run.1.times = j.times := by
  unfold Job.run
  split <;> rfl

lemma Job.runSeq_times (j : Job) (k : Nat) : (j.runSeq k).1.times = j.times := by
  induction k generalizing j with
  | zero => rfl
  | succ k ih =>
    show ((j.run.1.runSeq k).1).times = j.times
    rw [ih j.run.1, Job.run_times]

lemma Job.runSeq_n (j : Job) (k : Nat) :
    (j.runSeq k).1.n = j.n + (j.runSeq k).2 := by
  induction k generalizing j with
  | zero => simp [Job.runSeq]
  | succ k ih =>
    simp only [Job.runSeq]
    rw [ih j.run.1]
    unfold Job.run
    split <;> simp <;> push_cast <;> ring

lemma Job.runSeq_count (j : Job) (k : Nat) (ht : j.times ≠ -1)
    (hn : j.n ≤ j.times) :
    ((j.runSeq k).2 : Int) = min (k : Int) (j.times - j.n) := by
  induction k generalizing j with
  | zero =>
    simp [Job.runSeq]
    omega
  | succ k ih =>
    simp only [Job.runSeq]
    by_cases hlt : j.n < j.times
    · have hrun : j.run = ({ j with n := j.n + 1 }, true) := by
        unfold Job.run
        rw [if_pos (Or.inr hlt)]
      rw [hrun]
      have := ih { j with n := j.n + 1 } ht (by simp; omega)
      simp only [if_true]
      push_cast
      rw [this]
      simp only
      omega
    · have hrun : j.run = (j, false) := by
        unfold Job.run
        rw [if_neg]
        push_neg
        exact ⟨ht, by omega⟩
      rw [hrun]
      have := ih j ht hn
      simp only [if_false, Bool.false_eq_true]
      push_cast
      rw [this]
      omega

end Chronos

namespace Chronos

/-! ## Candidate congruence and sign helpers -/

lemma periodicCand_congr (a b : Periodic) (h1 : a.start = b.start)
    (h2 : a.ammount = b.ammount) (h3 : a.n = b.n) :
    a.getCandidate = b.getCandidate := by
  unfold Periodic.getCandidate
  rw [h1, h2, h3]

lemma monthlyCand_congr (a b : Monthly) (h1 : a.start = b.start)
    (h2 : a.ammount = b.ammount) (h3 : a.n = b.n) :
    a.getCandidate = b.getCandidate := by
  unfold Monthly.getCandidate
  rw [h1, h2, h3]

lemma yearlyCand_congr (a b : Yearly) (h1 : a.start = b.start)
    (h2 : a.ammount = b.ammount) (h3 : a.n = b.n) :
    a.getCandidate = b.getCandidate := by
  unfold Yearly.getCandidate
  rw [h1, h2, h3]

lemma before_false_sub_nonneg (t u : GoTime) (h : t.before u = false) :
    0 ≤ t.sub u := by
  unfold GoTime.before at h
  unfold GoTime.sub
  simp only [decide_eq_false_iff_not, not_lt] at h
  omega

/-- C1: for every cadence (periodic, monthly, yearly), a terminating
`next(now)` call behaves as follows.  If the cadence was unprimed
(`started = false`), the loop stops without advancing `n` (the first
due occurrence is reported as-is) and priming is marked done
(`started = true` afterwards).  If primed, `n` only grows, the final
candidate is not before `now`, and every skipped index had a candidate
strictly before `now` — so the call returns the first occurrence not
before `now` without reporting intermediate missed occurrences. -/
theorem c1_catchup_loop :
    (∀ (fuel : Nat) (s : Periodic) (now : GoTime) (s1 : Periodic)
        (hm : Bool) (w : Int), Periodic.next fuel s now = some (s1, hm, w) →
        s1.started = true ∧
        (s.started = false → s1.n = s.n) ∧
        (s.started = true → s.n ≤ s1.n ∧
          s1.getCandidate.before now = false ∧
          ∀ k, s.n ≤ k → k < s1.n →
            (Periodic.getCandidate { s with n := k }).before now = true)) ∧
    (∀ (fuel : Nat) (s : Monthly) (now : GoTime) (s1 : Monthly)
        (hm : Bool) (w : Int), Monthly.next fuel s now = some (s1, hm, w) →
        s1.started = true ∧
        (s.started = false → s1.n = s.n) ∧
        (s.started = true → s.n ≤ s1.n ∧
          s1.getCandidate.before now = false ∧
          ∀ k, s.n ≤ k → k < s1.n →
            (Monthly.getCandidate { s with n := k }).before now = true)) ∧
    (∀ (fuel : Nat) (s : Yearly) (now : GoTime) (s1 : Yearly)
        (hm : Bool) (w : Int), Yearly.next fuel s now = some (s1, hm, w) →
        s1.started = true ∧
        (s.started = false → s1.n = s.n) ∧
        (s.started = true → s.n ≤ s1.n ∧
          s1.getCandidate.before now = false ∧
          ∀ k, s.n ≤ k → k < s1.n →
            (Yearly.getCandidate { s with n := k }).before now = true)) := by
  refine ⟨?_, ?_, ?_⟩
  · intro fuel s now s1 hm w h
    obtain ⟨hc, hstart, hend, hamm, hstarted, hhm, hw⟩ := periodicNext_some h
    obtain ⟨h1, h2, h3, h4⟩ := catchUp_spec fuel s.n s1.n hc
    refine ⟨hstarted, h1, fun hs => ⟨h2, ?_, fun k hk1 hk2 => h4 k hk1 hk2⟩⟩
    have hcand : s1.getCandidate = s.start.add (s1.n * s.ammount) := by
      unfold Periodic.getCandidate
      rw [hstart, hamm]
    rw [hcand]
    exact h3 hs
  · intro fuel s now s1 hm w h
    obtain ⟨hc, hstart, hend, hamm, hstarted, hhm, hw⟩ := monthlyNext_some h
    obtain ⟨h1, h2, h3, h4⟩ := catchUp_spec fuel s.n s1.n hc
    refine ⟨hstarted, h1, fun hs => ⟨h2, ?_, fun k hk1 hk2 => h4 k hk1 hk2⟩⟩
    have hcand : s1.getCandidate = Monthly.getCandidate { s with n := s1.n } :=
      monthlyCand_congr _ _ hstart hamm rfl
    rw [hcand]
    exact h3 hs
  · intro fuel s now s1 hm w h
    obtain ⟨hc, hstart, hend, hamm, hstarted, hhm, hw⟩ := yearlyNext_some h
    obtain ⟨h1, h2, h3, h4⟩ := catchUp_spec fuel s.n s1.n hc
    refine ⟨hstarted, h1, fun hs => ⟨h2, ?_, fun k hk1 hk2 => h4 k hk1 hk2⟩⟩
    have hcand : s1.getCandidate = Yearly.getCandidate { s with n := s1.n } :=
      yearlyCand_congr _ _ hstart hamm rfl
    rw [hcand]
    exact h3 hs

/-- Witness for C1 at a concrete primed periodic cadence: starting at
2023-01-01 with a 10 ns step and the clock 25 ns in, the call lands on
index 3, whose candidate is not before now, while the skipped index 1
was strictly before now. -/
theorem c1_catchup_loop_witness :
    (⟨mkTime 2023 1 1, mkTime 1 1 1, true, 10, 3⟩ : Periodic).started = true ∧
    ((⟨mkTime 2023 1 1, mkTime 1 1 1, true, 10, 0⟩ : Periodic).n ≤
      (⟨mkTime 2023 1 1, mkTime 1 1 1, true, 10, 3⟩ : Periodic).n ∧
     (⟨mkTime 2023 1 1, mkTime 1 1 1, true, 10, 3⟩ : Periodic).getCandidate.before
        ((mkTime 2023 1 1).add 25) = false) ∧
    (Periodic.getCandidate ⟨mkTime 2023 1 1, mkTime 1 1 1, true, 10, 1⟩).before
        ((mkTime 2023 1 1).add 25) = true := by
  have h := c1_catchup_loop.1 5 ⟨mkTime 2023 1 1, mkTime 1 1 1, true, 10, 0⟩
    ((mkTime 2023 1 1).add 25) ⟨mkTime 2023 1 1, mkTime 1 1 1, true, 10, 3⟩
    true 5 (by decide)
  exact ⟨h.1, ⟨(h.2.2 rfl).1, (h.2.2 rfl).2.1⟩,
    (h.2.2 rfl).2.2 1 (by decide) (by decide)⟩

end Chronos

namespace Chronos

/-- Counterexample to C8 as stated: a cadence that is already primed
(`started = true`, anchor 2023-01-01, 10 ns step, index 0) called with
`now` exactly 10 ns after the anchor returns wait `0`, which is not
strictly positive — the catch-up loop stops as soon as the candidate is
not strictly before `now`, so a primed call whose clock coincides with
an occurrence reports a zero wait. -/
theorem c8_wait_counterexample :
    (⟨mkTime 2023 1 1, mkTime 1 1 1, true, 10, 0⟩ : Periodic).started = true ∧
    Periodic.next 5 ⟨mkTime 2023 1 1, mkTime 1 1 1, true, 10, 0⟩
        ((mkTime 2023 1 1).add 10) =
      some (⟨mkTime 2023 1 1, mkTime 1 1 1, true, 10, 1⟩, true, 0) ∧
    ¬ (0 : Int) > 0 := by
  exact ⟨rfl, by decide, by omega⟩

/-- C8 (amended): for every cadence, the wait returned by `next(now)`
equals `candidate − now`; a strictly negative wait can occur only on an
unprimed call — every call made on an already-primed cadence returns a
wait that is non-negative (it is zero exactly when `now` coincides with
the reported occurrence). -/
theorem c8_wait_formula :
    (∀ (fuel : Nat) (s : Periodic) (now : GoTime) (s1 : Periodic)
        (hm : Bool) (w : Int), Periodic.next fuel s now = some (s1, hm, w) →
        w = s1.getCandidate.sub now ∧ (s.started = true → 0 ≤ w)) ∧
    (∀ (fuel : Nat) (s : Monthly) (now : GoTime) (s1 : Monthly)
        (hm : Bool) (w : Int), Monthly.next fuel s now = some (s1, hm, w) →
        w = s1.getCandidate.sub now ∧ (s.started = true → 0 ≤ w)) ∧
    (∀ (fuel : Nat) (s : Yearly) (now : GoTime) (s1 : Yearly)
        (hm : Bool) (w : Int), Yearly.next fuel s now = some (s1, hm, w) →
        w = s1.getCandidate.sub now ∧ (s.started = true → 0 ≤ w)) := by
  refine ⟨?_, ?_, ?_⟩
  · intro fuel s now s1 hm w h
    obtain ⟨hc, hstart, hend, hamm, hstarted, hhm, hw⟩ := periodicNext_some h
    obtain ⟨h1, h2, h3, h4⟩ := catchUp_spec fuel s.n s1.n hc
    refine ⟨hw, fun hs => ?_⟩
    rw [hw]
    apply before_false_sub_nonneg
    have hcand : s1.getCandidate = s.start.add (s1.n * s.ammount) := by
      unfold Periodic.getCandidate
      rw [hstart, hamm]
    rw [hcand]
    exact h3 hs
  · intro fuel s now s1 hm w h
    obtain ⟨hc, hstart, hend, hamm, hstarted, hhm, hw⟩ := monthlyNext_some h
    obtain ⟨h1, h2, h3, h4⟩ := catchUp_spec fuel s.n s1.n hc
    refine ⟨hw, fun hs => ?_⟩
    rw [hw]
    apply before_false_sub_nonneg
    have hcand : s1.getCandidate = Monthly.getCandidate { s with n := s1.n } :=
      monthlyCand_congr _ _ hstart hamm rfl
    rw [hcand]
    exact h3 hs
  · intro fuel s now s1 hm w h
    obtain ⟨hc, hstart, hend, hamm, hstarted, hhm, hw⟩ := yearlyNext_some h
    obtain ⟨h1, h2, h3, h4⟩ := catchUp_spec fuel s.n s1.n hc
    refine ⟨hw, fun hs => ?_⟩
    rw [hw]
    apply before_false_sub_nonneg
    have hcand : s1.getCandidate = Yearly.getCandidate { s with n := s1.n } :=
      yearlyCand_congr _ _ hstart hamm rfl
    rw [hcand]
    exact h3 hs

/-- Witness for the amended C8 at the counterexample input: the zero
wait satisfies the `candidate − now` formula and is non-negative. -/
theorem c8_wait_formula_witness :
    (0 : Int) = ((⟨mkTime 2023 1 1, mkTime 1 1 1, true, 10, 1⟩ : Periodic).getCandidate.sub
      ((mkTime 2023 1 1).add 10)) ∧ (0 : Int) ≤ 0 := by
  have h := c8_wait_formula.1 5 ⟨mkTime 2023 1 1, mkTime 1 1 1, true, 10, 0⟩
    ((mkTime 2023 1 1).add 10) ⟨mkTime 2023 1 1, mkTime 1 1 1, true, 10, 1⟩
    true 0 (by decide)
  exact ⟨h.1, h.2 rfl⟩

/-- C9: across any terminating `next` call of any cadence variant,
`occurrenceIndex` (`n`) never decreases, the immutable fields are
untouched, and the reported wait is computed from the candidate
recomputed from `start` at the final index — never from a previous
result. -/
theorem c9_index_monotone_recomputed :
    (∀ (fuel : Nat) (s : Periodic) (now : GoTime) (s1 : Periodic)
        (hm : Bool) (w : Int), Periodic.next fuel s now = some (s1, hm, w) →
        s.n ≤ s1.n ∧ s1.start = s.start ∧ s1.ammount = s.ammount ∧
        s1.endT = s.endT ∧
        w = ((s.start.add (s1.n * s.ammount)).sub now)) ∧
    (∀ (fuel : Nat) (s : Monthly) (now : GoTime) (s1 : Monthly)
        (hm : Bool) (w : Int), Monthly.next fuel s now = some (s1, hm, w) →
        s.n ≤ s1.n ∧ s1.start = s.start ∧ s1.ammount = s.ammount ∧
        s1.endT = s.endT ∧
        w = ((Monthly.getCandidate ⟨s.start, s.endT, s.started, s.ammount, s1.n⟩).sub now)) ∧
    (∀ (fuel : Nat) (s : Yearly) (now : GoTime) (s1 : Yearly)
        (hm : Bool) (w : Int), Yearly.next fuel s now = some (s1, hm, w) →
        s.n ≤ s1.n ∧ s1.start = s.start ∧ s1.ammount = s.ammount ∧
        s1.endT = s.endT ∧
        w = ((Yearly.getCandidate ⟨s.start, s.endT, s.started, s.ammount, s1.n⟩).sub now)) := by
  refine ⟨?_, ?_, ?_⟩
  · intro fuel s now s1 hm w h
    obtain ⟨hc, hstart, hend, hamm, hstarted, hhm, hw⟩ := periodicNext_some h
    obtain ⟨h1, h2, h3, h4⟩ := catchUp_spec fuel s.n s1.n hc
    refine ⟨h2, hstart, hamm, hend, ?_⟩
    rw [hw]
    congr 1
    unfold Periodic.getCandidate
    rw [hstart, hamm]
  · intro fuel s now s1 hm w h
    obtain ⟨hc, hstart, hend, hamm, hstarted, hhm, hw⟩ := monthlyNext_some h
    obtain ⟨h1, h2, h3, h4⟩ := catchUp_spec fuel s.n s1.n hc
    refine ⟨h2, hstart, hamm, hend, ?_⟩
    rw [hw]
    congr 1
    exact monthlyCand_congr _ _ hstart hamm rfl
  · intro fuel s now s1 hm w h
    obtain ⟨hc, hstart, hend, hamm, hstarted, hhm, hw⟩ := yearlyNext_some h
    obtain ⟨h1, h2, h3, h4⟩ := catchUp_spec fuel s.n s1.n hc
    refine ⟨h2, hstart, hamm, hend, ?_⟩
    rw [hw]
    congr 1
    exact yearlyCand_congr _ _ hstart hamm rfl

/-- Witness for C9 at a concrete monthly cadence (anchor 2023-01-31,
one-month step, index 1, clock at 2023-03-01): the index moves 1 → 2
and the wait is the recomputed index-2 candidate (2023-03-31) minus
now. -/
theorem c9_index_monotone_recomputed_witness :
    ((1 : Int) ≤ (2 : Int)) ∧
    (2592000000000000 : Int) =
      ((Monthly.getCandidate ⟨mkTime 2023 1 31, mkTime 1 1 1, true, 1, 2⟩).sub
        (mkTime 2023 3 1)) := by
  have h := c9_index_monotone_recomputed.2.1 5
    ⟨mkTime 2023 1 31, mkTime 1 1 1, true, 1, 1⟩ (mkTime 2023 3 1)
    ⟨mkTime 2023 1 31, mkTime 1 1 1, true, 1, 2⟩ true 2592000000000000
    (by decide)
  exact ⟨h.1, h.2.2.2.2⟩

end Chronos

namespace Chronos

/-- C10 (implicit): constructing any cadence with the skip-first flag
(`notInmediately = true`) sets `started = true` already at
construction, so the unprimed grace of the catch-up loop never
applies: even the very first `next(now)` call advances the index past
every candidate before `now` (each skipped candidate was strictly
before `now`, the reported candidate is not) and returns a
non-negative wait instead of reporting an overdue occurrence. -/
theorem c10_skipfirst_preprimed :
    (∀ (now start endT : GoTime) (a u : Int) (s : Periodic),
        newPeriodic now start endT a u true = .ok s → s.started = true) ∧
    (∀ (now start endT : GoTime) (a : Int) (s : Monthly),
        newMonthly now start endT a true = .ok s → s.started = true) ∧
    (∀ (now start endT : GoTime) (a : Int) (s : Yearly),
        newYearly now start endT a true = .ok s → s.started = true) ∧
    (∀ (fuel : Nat) (s : Periodic) (now : GoTime) (s1 : Periodic)
        (hm : Bool) (w : Int), s.started = true →
        Periodic.next fuel s now = some (s1, hm, w) →
        0 ≤ w ∧ s1.getCandidate.before now = false ∧
        ∀ k, s.n ≤ k → k < s1.n →
          (Periodic.getCandidate { s with n := k }).before now = true) ∧
    (∀ (fuel : Nat) (s : Monthly) (now : GoTime) (s1 : Monthly)
        (hm : Bool) (w : Int), s.started = true →
        Monthly.next fuel s now = some (s1, hm, w) →
        0 ≤ w ∧ s1.getCandidate.before now = false ∧
        ∀ k, s.n ≤ k → k < s1.n →
          (Monthly.getCandidate { s with n := k }).before now = true) ∧
    (∀ (fuel : Nat) (s : Yearly) (now : GoTime) (s1 : Yearly)
        (hm : Bool) (w : Int), s.started = true →
        Yearly.next fuel s now = some (s1, hm, w) →
        0 ≤ w ∧ s1.getCandidate.before now = false ∧
        ∀ k, s.n ≤ k → k < s1.n →
          (Yearly.getCandidate { s with n := k }).before now = true) := by
  refine ⟨?_, ?_, ?_, ?_, ?_, ?_⟩
  · intro now start endT a u s h
    unfold newPeriodic at h
    split at h
    · cases h
    · injection h with h2
      rw [← h2]
  · intro now start endT a s h
    unfold newMonthly at h
    split at h
    · cases h
    · injection h with h2
      rw [← h2]
  · intro now start endT a s h
    unfold newYearly at h
    split at h
    · cases h
    · injection h with h2
      rw [← h2]
  · intro fuel s now s1 hm w hs h
    obtain ⟨hc, hstart, hend, hamm, hstarted, hhm, hw⟩ := periodicNext_some h
    obtain ⟨h1, h2, h3, h4⟩ := catchUp_spec fuel s.n s1.n hc
    have hcand : s1.getCandidate = s.start.add (s1.n * s.ammount) := by
      unfold Periodic.getCandidate
      rw [hstart, hamm]
    have hbef : s1.getCandidate.before now = false := by
      rw [hcand]
      exact h3 hs
    refine ⟨?_, hbef, fun k hk1 hk2 => h4 k hk1 hk2⟩
    rw [hw]
    exact before_false_sub_nonneg _ _ hbef
  · intro fuel s now s1 hm w hs h
    obtain ⟨hc, hstart, hend, hamm, hstarted, hhm, hw⟩ := monthlyNext_some h
    obtain ⟨h1, h2, h3, h4⟩ := catchUp_spec fuel s.n s1.n hc
    have hcand : s1.getCandidate = Monthly.getCandidate { s with n := s1.n } :=
      monthlyCand_congr _ _ hstart hamm rfl
    have hbef : s1.getCandidate.before now = false := by
      rw [hcand]
      exact h3 hs
    refine ⟨?_, hbef, fun k hk1 hk2 => h4 k hk1 hk2⟩
    rw [hw]
    exact before_false_sub_nonneg _ _ hbef
  · intro fuel s now s1 hm w hs h
    obtain ⟨hc, hstart, hend, hamm, hstarted, hhm, hw⟩ := yearlyNext_some h
    obtain ⟨h1, h2, h3, h4⟩ := catchUp_spec fuel s.n s1.n hc
    have hcand : s1.getCandidate = Yearly.getCandidate { s with n := s1.n } :=
      yearlyCand_congr _ _ hstart hamm rfl
    have hbef : s1.getCandidate.before now = false := by
      rw [hcand]
      exact h3 hs
    refine ⟨?_, hbef, fun k hk1 hk2 => h4 k hk1 hk2⟩
    rw [hw]
    exact before_false_sub_nonneg _ _ hbef

/-- Witness for C10: a periodic cadence built with skip-first is
primed at construction, and its very first call with the clock 25 ns
past the anchor catches up (index 1 was before now) and returns a
non-negative wait. -/
theorem c10_skipfirst_preprimed_witness :
    (⟨mkTime 2023 1 1, mkTime 1 1 1, true, 10, 1⟩ : Periodic).started = true ∧
    (0 : Int) ≤ 5 ∧
    (⟨mkTime 2023 1 1, mkTime 1 1 1, true, 10, 3⟩ : Periodic).getCandidate.before
      ((mkTime 2023 1 1).add 25) = false ∧
    (Periodic.getCandidate ⟨mkTime 2023 1 1, mkTime 1 1 1, true, 10, 1⟩).before
      ((mkTime 2023 1 1).add 25) = true := by
  have hcon := c10_skipfirst_preprimed.1 (mkTime 2023 1 1) (mkTime 2023 1 1)
    (mkTime 1 1 1) 10 1 ⟨mkTime 2023 1 1, mkTime 1 1 1, true, 10, 1⟩ (by rfl)
  have h := c10_skipfirst_preprimed.2.2.2.1 5
    ⟨mkTime 2023 1 1, mkTime 1 1 1, true, 10, 1⟩ ((mkTime 2023 1 1).add 25)
    ⟨mkTime 2023 1 1, mkTime 1 1 1, true, 10, 3⟩ true 5 rfl (by decide)
  exact ⟨hcon, h.1, h.2.1, h.2.2 1 (by decide) (by decide)⟩

/-- C3: the periodic candidate at index `k` is
`start + k × (amount × unit)` (the struct's `ammount` holds the product
`amount × unit`), recomputed from `start`; and a primed periodic
cadence whose clock advances by exactly one step past the current
index reports the index increased by exactly one with wait `0`. -/
theorem c3_periodic_formula :
    (∀ (s : Periodic) (k : Int),
        (Periodic.getCandidate { s with n := k }).absNs =
          s.start.absNs + k * s.ammount) ∧
    (∀ (f : Nat) (s : Periodic), s.started = true → 0 < s.ammount →
        (Periodic.next (f + 2) s (s.start.add ((s.n + 1) * s.ammount))).map
            (fun r => (r.1.n, r.2.2)) = some (s.n + 1, 0)) := by
  constructor
  · intro s k
    unfold Periodic.getCandidate
    exact absNs_add _ _
  · intro f s hs ha
    have hb1 : (s.start.add (s.n * s.ammount)).before
        (s.start.add ((s.n + 1) * s.ammount)) = true := by
      unfold GoTime.before
      rw [absNs_add, absNs_add]
      have hexp : (s.n + 1) * s.ammount = s.n * s.ammount + s.ammount := by ring
      simp only [decide_eq_true_eq]
      omega
    have hb2 : (s.start.add ((s.n + 1) * s.ammount)).before
        (s.start.add ((s.n + 1) * s.ammount)) = false := by
      unfold GoTime.before
      simp
    have hloop : catchUp (fun k => s.start.add (k * s.ammount))
        (s.start.add ((s.n + 1) * s.ammount)) s.started (f + 2) s.n =
        some (s.n + 1) := by
      rw [hs]
      simp only [catchUp, hb1, if_true, hb2, Bool.false_eq_true, if_false]
    unfold Periodic.next
    rw [hloop]
    simp only [Option.map_some]
    have hzero : ((⟨s.start, s.endT, true, s.ammount, s.n + 1⟩ : Periodic).getCandidate).sub
        (s.start.add ((s.n + 1) * s.ammount)) = 0 := by
      simp [Periodic.getCandidate, GoTime.sub]
    simp [hzero]

/-- Witness for C3: concrete primed periodic cadence at index 2, 10 ns
step, clock exactly at the index-3 candidate: the call reports index 3
and wait 0; and the index-2 candidate is 20 ns past the anchor. -/
theorem c3_periodic_formula_witness :
    (Periodic.getCandidate ⟨mkTime 2023 1 1, mkTime 1 1 1, true, 10, 2⟩).absNs =
      (mkTime 2023 1 1).absNs + 2 * 10 ∧
    (Periodic.next 5 ⟨mkTime 2023 1 1, mkTime 1 1 1, true, 10, 2⟩
        ((mkTime 2023 1 1).add ((2 + 1) * 10))).map
        (fun r => (r.1.n, r.2.2)) = some (2 + 1, 0) := by
  exact ⟨c3_periodic_formula.1 ⟨mkTime 2023 1 1, mkTime 1 1 1, true, 10, 2⟩ 2,
    c3_periodic_formula.2 3 ⟨mkTime 2023 1 1, mkTime 1 1 1, true, 10, 2⟩ rfl
      (by norm_num)⟩

end Chronos

namespace Chronos

/-- C4: a cadence configured with a zero step amount (or, for
periodic, a zero unit) is rejected with an error at construction and
no cadence value is produced; a successful construction implies the
step parameters — and hence the stored step — are non-zero, so
validation happens at construction time (`next` carries no error
channel at all). -/
theorem c4_zero_step_rejected :
    ∀ (now start endT : GoTime) (a u : Int) (ni : Bool),
      ((a = 0 ∨ u = 0) →
        newPeriodic now start endT a u ni =
          Except.error "0 is not a valid period") ∧
      (∀ s, newPeriodic now start endT a u ni = .ok s →
        a ≠ 0 ∧ u ≠ 0 ∧ s.ammount = a * u ∧ s.ammount ≠ 0) ∧
      (a = 0 →
        newMonthly now start endT a ni =
          Except.error "0 months is not a valid period") ∧
      (∀ s, newMonthly now start endT a ni = .ok s →
        a ≠ 0 ∧ s.ammount = a) ∧
      (a = 0 →
        newYearly now start endT a ni =
          Except.error "0 years is not a valid period") ∧
      (∀ s, newYearly now start endT a ni = .ok s →
        a ≠ 0 ∧ s.ammount = a) := by
  intro now start endT a u ni
  refine ⟨?_, ?_, ?_, ?_, ?_, ?_⟩
  · intro hz
    unfold newPeriodic
    rw [if_pos hz]
  · intro s h
    unfold newPeriodic at h
    split at h
    · cases h
    · rename_i hcond
      push_neg at hcond
      injection h with h2
      refine ⟨hcond.1, hcond.2, ?_, ?_⟩
      · rw [← h2]
      · rw [← h2]
        exact mul_ne_zero hcond.1 hcond.2
  · intro hz
    unfold newMonthly
    rw [if_pos hz]
  · intro s h
    unfold newMonthly at h
    split at h
    · cases h
    · rename_i hcond
      injection h with h2
      refine ⟨hcond, ?_⟩
      rw [← h2]
  · intro hz
    unfold newYearly
    rw [if_pos hz]
  · intro s h
    unfold newYearly at h
    split at h
    · cases h
    · rename_i hcond
      injection h with h2
      refine ⟨hcond, ?_⟩
      rw [← h2]

/-- Witness for C4: amount 0 is rejected; amount 10, unit 1 is
accepted with a non-zero stored step. -/
theorem c4_zero_step_rejected_witness :
    newPeriodic (mkTime 2023 1 1) (mkTime 2023 1 1) (mkTime 1 1 1) 0 1 false =
      Except.error "0 is not a valid period" ∧
    ((10 : Int) ≠ 0 ∧ (1 : Int) ≠ 0 ∧
      (⟨mkTime 2023 1 1, mkTime 1 1 1, false, 10, 0⟩ : Periodic).ammount = 10 * 1 ∧
      (⟨mkTime 2023 1 1, mkTime 1 1 1, false, 10, 0⟩ : Periodic).ammount ≠ 0) := by
  refine ⟨(c4_zero_step_rejected (mkTime 2023 1 1) (mkTime 2023 1 1)
      (mkTime 1 1 1) 0 1 false).1 (Or.inl rfl), ?_⟩
  exact (c4_zero_step_rejected (mkTime 2023 1 1) (mkTime 2023 1 1)
      (mkTime 1 1 1) 10 1 false).2.1
    ⟨mkTime 2023 1 1, mkTime 1 1 1, false, 10, 0⟩ (by rfl)

/-- C5: for every cadence, a terminating `next(now)` call reports
`hasMore` true iff the end instant is unset (the zero time) or the
final candidate is strictly before `end`; concretely, a periodic
cadence whose `end` admits only 3 occurrences reports `hasMore = true`
on the first three calls and `hasMore = false` on the 4th. -/
theorem c5_hasmore_end_bound :
    (∀ (fuel : Nat) (s : Periodic) (now : GoTime) (s1 : Periodic)
        (hm : Bool) (w : Int), Periodic.next fuel s now = some (s1, hm, w) →
        hm = (s.endT.isZero || s1.getCandidate.before s.endT)) ∧
    (∀ (fuel : Nat) (s : Monthly) (now : GoTime) (s1 : Monthly)
        (hm : Bool) (w : Int), Monthly.next fuel s now = some (s1, hm, w) →
        hm = (s.endT.isZero || s1.getCandidate.before s.endT)) ∧
    (∀ (fuel : Nat) (s : Yearly) (now : GoTime) (s1 : Yearly)
        (hm : Bool) (w : Int), Yearly.next fuel s now = some (s1, hm, w) →
        hm = (s.endT.isZero || s1.getCandidate.before s.endT)) ∧
    (newPeriodic (mkTime 2023 1 1) (mkTime 2023 1 1) ((mkTime 2023 1 1).add 25)
        10 1 false =
      .ok ⟨mkTime 2023 1 1, (mkTime 2023 1 1).add 25, false, 10, 0⟩) ∧
    (Periodic.next 5 ⟨mkTime 2023 1 1, (mkTime 2023 1 1).add 25, false, 10, 0⟩
        (mkTime 2023 1 1) =
      some (⟨mkTime 2023 1 1, (mkTime 2023 1 1).add 25, true, 10, 0⟩, true, 0)) ∧
    (Periodic.next 5 ⟨mkTime 2023 1 1, (mkTime 2023 1 1).add 25, true, 10, 0⟩
        ((mkTime 2023 1 1).add 10) =
      some (⟨mkTime 2023 1 1, (mkTime 2023 1 1).add 25, true, 10, 1⟩, true, 0)) ∧
    (Periodic.next 5 ⟨mkTime 2023 1 1, (mkTime 2023 1 1).add 25, true, 10, 1⟩
        ((mkTime 2023 1 1).add 20) =
      some (⟨mkTime 2023 1 1, (mkTime 2023 1 1).add 25, true, 10, 2⟩, true, 0)) ∧
    (Periodic.next 5 ⟨mkTime 2023 1 1, (mkTime 2023 1 1).add 25, true, 10, 2⟩
        ((mkTime 2023 1 1).add 30) =
      some (⟨mkTime 2023 1 1, (mkTime 2023 1 1).add 25, true, 10, 3⟩, false, 0)) := by
  refine ⟨?_, ?_, ?_, by rfl, by decide, by decide, by decide, by decide⟩
  · intro fuel s now s1 hm w h
    exact (periodicNext_some h).2.2.2.2.2.1
  · intro fuel s now s1 hm w h
    exact (monthlyNext_some h).2.2.2.2.2.1
  · intro fuel s now s1 hm w h
    exact (yearlyNext_some h).2.2.2.2.2.1

/-- Witness for C5's generic conjuncts at the 4th call of the
concrete scenario: the reported `hasMore = false` equals the
`end`-unset-or-candidate-before-`end` formula. -/
theorem c5_hasmore_end_bound_witness :
    (false : Bool) =
      (((mkTime 2023 1 1).add 25).isZero ||
        (⟨mkTime 2023 1 1, (mkTime 2023 1 1).add 25, true, 10, 3⟩ :
            Periodic).getCandidate.before ((mkTime 2023 1 1).add 25)) := by
  exact c5_hasmore_end_bound.1 5
    ⟨mkTime 2023 1 1, (mkTime 2023 1 1).add 25, true, 10, 2⟩
    ((mkTime 2023 1 1).add 30)
    ⟨mkTime 2023 1 1, (mkTime 2023 1 1).add 25, true, 10, 3⟩ false 0 (by decide)

/-- Counterexample to C6 as stated: the claim exempts only the
unbounded sentinel `-1`, but a job configured with the (non-sentinel)
ceiling `-2` never runs, so its execution count `0` exceeds the
ceiling `-2`. -/
theorem c6_maxruns_counterexample :
    (Job.NTimes Schedule (-2)).times ≠ -1 ∧
    ((Job.runSeq (Job.NTimes Schedule (-2)) 3).2 : Int) >
      (Job.NTimes Schedule (-2)).times := by
  exact ⟨by decide, by decide⟩

/-- C6 (amended): for every job whose execution ceiling is
non-sentinel and at least the current count, any number of `run()`
calls keeps the counter at or below the ceiling and performs at most
`ceiling − count` task invocations; `run()` increments the counter and
invokes the task exactly when the counter is strictly below the
ceiling; with `maxRuns = 2` (`Twice`), exactly `min k 2` invocations
happen in `k` calls — 2 invocations no matter how large `k` grows. -/
theorem c6_maxruns_bound :
    (∀ (j : Job) (k : Nat), j.times ≠ -1 → j.n ≤ j.times →
        (j.runSeq k).1.n ≤ j.times ∧
        ((j.runSeq k).2 : Int) ≤ j.times - j.n) ∧
    (∀ j : Job, j.times ≠ -1 →
        (j.run.2 = true ↔ j.n < j.times) ∧
        (j.run.2 = true → j.run.1.n = j.n + 1) ∧
        (j.run.2 = false → j.run.1 = j)) ∧
    (∀ k : Nat, ((Job.runSeq (Job.Twice Schedule) k).2 : Int) = min (k : Int) 2) := by
  refine ⟨?_, ?_, ?_⟩
  · intro j k ht hn
    have hcount := Job.runSeq_count j k ht hn
    have hns := Job.runSeq_n j k
    constructor
    · rw [hns]
      omega
    · omega
  · intro j ht
    unfold Job.run
    by_cases hlt : j.n < j.times
    · rw [if_pos (Or.inr hlt)]
      exact ⟨⟨fun _ => hlt, fun _ => rfl⟩, fun _ => rfl,
             fun hc => Bool.noConfusion hc⟩
    · rw [if_neg (by push_neg; exact ⟨ht, by omega⟩)]
      exact ⟨⟨fun hc => Bool.noConfusion hc, fun hc => absurd hc hlt⟩,
             fun hc => Bool.noConfusion hc, fun _ => rfl⟩
  · intro k
    have := Job.runSeq_count (Job.Twice Schedule) k (by decide) (by decide)
    simpa using this

/-- Witness for the amended C6: five `run()` calls on a `Twice` job
perform exactly 2 invocations and leave the counter at the ceiling. -/
theorem c6_maxruns_bound_witness :
    ((Job.runSeq (Job.Twice Schedule) 5).2 : Int) = min (5 : Int) 2 ∧
    (Job.runSeq (Job.Twice Schedule) 5).1.n ≤ (Job.Twice Schedule).times := by
  exact ⟨c6_maxruns_bound.2.2 5,
    (c6_maxruns_bound.1 (Job.Twice Schedule) 5 (by decide) (by decide)).1⟩

/-- C7: every cadence constructed with the skip-first flag starts at
`occurrenceIndex = 1`; across any terminating `next` call the index
stays at least 1 (it never decreases), the reported wait is that of
the candidate at the final index — so the index-0 candidate (the
anchor) is never the reported occurrence — and for periodic cadences
with non-zero step the reported instant differs from the anchor. -/
theorem c7_skipfirst_index_one :
    (∀ (now start endT : GoTime) (a u : Int) (s : Periodic),
        newPeriodic now start endT a u true = .ok s → s.n = 1) ∧
    (∀ (now start endT : GoTime) (a : Int) (s : Monthly),
        newMonthly now start endT a true = .ok s → s.n = 1) ∧
    (∀ (now start endT : GoTime) (a : Int) (s : Yearly),
        newYearly now start endT a true = .ok s → s.n = 1) ∧
    (∀ (fuel : Nat) (s : Periodic) (now : GoTime) (s1 : Periodic)
        (hm : Bool) (w : Int), Periodic.next fuel s now = some (s1, hm, w) →
        1 ≤ s.n →
        1 ≤ s1.n ∧ w = ((Periodic.getCandidate { s with n := s1.n }).sub now)) ∧
    (∀ (fuel : Nat) (s : Monthly) (now : GoTime) (s1 : Monthly)
        (hm : Bool) (w : Int), Monthly.next fuel s now = some (s1, hm, w) →
        1 ≤ s.n →
        1 ≤ s1.n ∧ w = ((Monthly.getCandidate { s with n := s1.n }).sub now)) ∧
    (∀ (fuel : Nat) (s : Yearly) (now : GoTime) (s1 : Yearly)
        (hm : Bool) (w : Int), Yearly.next fuel s now = some (s1, hm, w) →
        1 ≤ s.n →
        1 ≤ s1.n ∧ w = ((Yearly.getCandidate { s with n := s1.n }).sub now)) ∧
    (∀ (fuel : Nat) (s : Periodic) (now : GoTime) (s1 : Periodic)
        (hm : Bool) (w : Int), Periodic.next fuel s now = some (s1, hm, w) →
        1 ≤ s.n → s.ammount ≠ 0 →
        s1.getCandidate.absNs ≠ s.start.absNs) := by
  refine ⟨?_, ?_, ?_, ?_, ?_, ?_, ?_⟩
  · intro now start endT a u s h
    unfold newPeriodic at h
    split at h
    · cases h
    · injection h with h2
      rw [← h2]
      simp
  · intro now start endT a s h
    unfold newMonthly at h
    split at h
    · cases h
    · injection h with h2
      rw [← h2]
      simp
  · intro now start endT a s h
    unfold newYearly at h
    split at h
    · cases h
    · injection h with h2
      rw [← h2]
      simp
  · intro fuel s now s1 hm w h h1
    obtain ⟨hc, hstart, hend, hamm, hstarted, hhm, hw⟩ := periodicNext_some h
    obtain ⟨g1, g2, g3, g4⟩ := catchUp_spec fuel s.n s1.n hc
    refine ⟨by omega, ?_⟩
    rw [hw]
    congr 1
    exact periodicCand_congr _ _ hstart hamm rfl
  · intro fuel s now s1 hm w h h1
    obtain ⟨hc, hstart, hend, hamm, hstarted, hhm, hw⟩ := monthlyNext_some h
    obtain ⟨g1, g2, g3, g4⟩ := catchUp_spec fuel s.n s1.n hc
    refine ⟨by omega, ?_⟩
    rw [hw]
    congr 1
    exact monthlyCand_congr _ _ hstart hamm rfl
  · intro fuel s now s1 hm w h h1
    obtain ⟨hc, hstart, hend, hamm, hstarted, hhm, hw⟩ := yearlyNext_some h
    obtain ⟨g1, g2, g3, g4⟩ := catchUp_spec fuel s.n s1.n hc
    refine ⟨by omega, ?_⟩
    rw [hw]
    congr 1
    exact yearlyCand_congr _ _ hstart hamm rfl
  · intro fuel s now s1 hm w h h1 ha
    obtain ⟨hc, hstart, hend, hamm, hstarted, hhm, hw⟩ := periodicNext_some h
    obtain ⟨g1, g2, g3, g4⟩ := catchUp_spec fuel s.n s1.n hc
    have hcand : s1.getCandidate = s.start.add (s1.n * s.ammount) := by
      unfold Periodic.getCandidate
      rw [hstart, hamm]
    rw [hcand, absNs_add]
    have hne : s1.n * s.ammount ≠ 0 := mul_ne_zero (by omega) ha
    omega

/-- Witness for C7: skip-first construction yields index 1, and a
subsequent call keeps the index at 2 ≥ 1 with the wait computed at
index 2. -/
theorem c7_skipfirst_index_one_witness :
    (⟨mkTime 2023 1 1, mkTime 1 1 1, true, 10, 1⟩ : Periodic).n = 1 ∧
    ((1 : Int) ≤
        (⟨mkTime 2023 1 1, mkTime 1 1 1, true, 10, 2⟩ : Periodic).n ∧
      (0 : Int) =
        ((Periodic.getCandidate ⟨mkTime 2023 1 1, mkTime 1 1 1, true, 10, 2⟩).sub
          ((mkTime 2023 1 1).add 20))) ∧
    (⟨mkTime 2023 1 1, mkTime 1 1 1, true, 10, 2⟩ : Periodic).getCandidate.absNs ≠
      (mkTime 2023 1 1).absNs := by
  refine ⟨c7_skipfirst_index_one.1 (mkTime 2023 1 1) (mkTime 2023 1 1)
      (mkTime 1 1 1) 10 1 ⟨mkTime 2023 1 1, mkTime 1 1 1, true, 10, 1⟩ (by rfl),
    c7_skipfirst_index_one.2.2.2.1 5
      ⟨mkTime 2023 1 1, mkTime 1 1 1, true, 10, 1⟩ ((mkTime 2023 1 1).add 20)
      ⟨mkTime 2023 1 1, mkTime 1 1 1, true, 10, 2⟩ true 0 (by decide) (by decide),
    c7_skipfirst_index_one.2.2.2.2.2.2 5
      ⟨mkTime 2023 1 1, mkTime 1 1 1, true, 10, 1⟩ ((mkTime 2023 1 1).add 20)
      ⟨mkTime 2023 1 1, mkTime 1 1 1, true, 10, 2⟩ true 0 (by decide) (by decide)
      (by decide)⟩

end Chronos

namespace Chronos

lemma dateNorm_monthNorm (y m d tod : Int) :
    dateNorm y m d tod = dateNorm (monthNorm y m).1 (monthNorm y m).2 d tod := by
  unfold dateNorm
  rw [monthNorm_self _ _ (monthNorm_snd_bounds y m).1 (monthNorm_snd_bounds y m).2]

/-- C2: for every monthly or yearly cadence with a valid anchor date,
when the anchor's day-of-month does not exist in the target month of a
step (`dim target < day`), the candidate for that step is the last
valid day of the target month — it never rolls into the following
month; when the day does exist, the candidate is the same day of the
target month (so clamping is per-step, recomputed from `start`, not
cumulative).  Concretely: anchoring monthly on 2023-01-31 yields
2023-02-28 at index 1 and 2023-03-31 at index 2, on 2024-01-31 yields
2024-02-29 (leap year), and anchoring yearly on 2024-02-29 yields
2025-02-28. -/
theorem c2_day_clamping :
    (∀ (s : Monthly) (ty tm : Int),
        1 ≤ s.start.month → s.start.month ≤ 12 → 1 ≤ s.start.day →
        s.start.day ≤ dim (isLeap s.start.year) s.start.month →
        monthNorm s.start.year (s.start.month + s.n * s.ammount) = (ty, tm) →
        (dim (isLeap ty) tm < s.start.day →
          s.getCandidate = ⟨ty, tm, dim (isLeap ty) tm, s.start.tod⟩) ∧
        (s.start.day ≤ dim (isLeap ty) tm →
          s.getCandidate = ⟨ty, tm, s.start.day, s.start.tod⟩)) ∧
    (∀ (s : Yearly),
        1 ≤ s.start.month → s.start.month ≤ 12 → 1 ≤ s.start.day →
        s.start.day ≤ dim (isLeap s.start.year) s.start.month →
        (dim (isLeap (s.start.year + s.n * s.ammount)) s.start.month <
            s.start.day →
          s.getCandidate = ⟨s.start.year + s.n * s.ammount, s.start.month,
            dim (isLeap (s.start.year + s.n * s.ammount)) s.start.month,
            s.start.tod⟩) ∧
        (s.start.day ≤ dim (isLeap (s.start.year + s.n * s.ammount))
            s.start.month →
          s.getCandidate = ⟨s.start.year + s.n * s.ammount, s.start.month,
            s.start.day, s.start.tod⟩)) ∧
    Monthly.getCandidate ⟨mkTime 2023 1 31, mkTime 1 1 1, true, 1, 1⟩ =
      mkTime 2023 2 28 ∧
    Monthly.getCandidate ⟨mkTime 2023 1 31, mkTime 1 1 1, true, 1, 2⟩ =
      mkTime 2023 3 31 ∧
    Monthly.getCandidate ⟨mkTime 2024 1 31, mkTime 1 1 1, true, 1, 1⟩ =
      mkTime 2024 2 29 ∧
    Yearly.getCandidate ⟨mkTime 2024 2 29, mkTime 1 1 1, true, 1, 1⟩ =
      mkTime 2025 2 28 := by
  refine ⟨?_, ?_, by decide, by decide, by decide, by decide⟩
  · intro s ty tm hm1 hm2 hd1 hd2 htarget
    have tb := monthNorm_snd_bounds s.start.year (s.start.month + s.n * s.ammount)
    rw [htarget] at tb
    simp only at tb
    have hdimS := dim_bounds (isLeap s.start.year) s.start.month
    have hdimT := dim_bounds (isLeap ty) tm
    constructor
    · intro hover
      have hres : s.start.addDate 0 (s.n * s.ammount) 0 =
          (if tm = 12 then
            (⟨ty + 1, 1, s.start.day - dim (isLeap ty) 12, s.start.tod⟩ : GoTime)
          else ⟨ty, tm + 1, s.start.day - dim (isLeap ty) tm, s.start.tod⟩) := by
        unfold GoTime.addDate
        rw [add_zero, add_zero, dateNorm_monthNorm, htarget]
        exact dateNorm_overflow ty tm s.start.day s.start.tod tb.1 tb.2 hover
          (by omega)
      unfold Monthly.getCandidate
      rw [hres]
      by_cases h12 : tm = 12
      · subst h12
        rw [if_pos rfl]
        simp only
        rw [if_pos (by omega)]
        unfold GoTime.addDate
        simp only
        have hday0 : s.start.day - dim (isLeap ty) 12 +
            -(s.start.day - dim (isLeap ty) 12) = 0 := by ring
        rw [add_zero, add_zero, hday0]
        rw [dateNorm_day0 (ty + 1) 1 s.start.tod (by norm_num) (by norm_num)]
        rw [if_pos rfl]
        have hy : ty + 1 - 1 = ty := by ring
        rw [hy]
      · rw [if_neg h12]
        simp only
        rw [if_pos (by omega)]
        unfold GoTime.addDate
        simp only
        have hday0 : s.start.day - dim (isLeap ty) tm +
            -(s.start.day - dim (isLeap ty) tm) = 0 := by ring
        rw [add_zero, add_zero, hday0]
        rw [dateNorm_day0 ty (tm + 1) s.start.tod (by omega) (by omega)]
        rw [if_neg (by omega)]
        have hmm : tm + 1 - 1 = tm := by ring
        rw [hmm]
    · intro hfits
      have hres : s.start.addDate 0 (s.n * s.ammount) 0 =
          ⟨ty, tm, s.start.day, s.start.tod⟩ := by
        unfold GoTime.addDate
        rw [add_zero, add_zero, dateNorm_monthNorm, htarget]
        exact dateNorm_valid ty tm s.start.day s.start.tod tb.1 tb.2 hd1 hfits
      unfold Monthly.getCandidate
      rw [hres]
      rw [if_neg (by simp)]
  · intro s hm1 hm2 hd1 hd2
    have hdimS := dim_bounds (isLeap s.start.year) s.start.month
    have hdimT := dim_bounds (isLeap (s.start.year + s.n * s.ammount))
      s.start.month
    constructor
    · intro hover
      have hres : s.start.addDate (s.n * s.ammount) 0 0 =
          (if s.start.month = 12 then
            (⟨s.start.year + s.n * s.ammount + 1, 1,
              s.start.day - dim (isLeap (s.start.year + s.n * s.ammount)) 12,
              s.start.tod⟩ : GoTime)
          else ⟨s.start.year + s.n * s.ammount, s.start.month + 1,
            s.start.day - dim (isLeap (s.start.year + s.n * s.ammount))
              s.start.month, s.start.tod⟩) := by
        unfold GoTime.addDate
        rw [add_zero, add_zero]
        exact dateNorm_overflow (s.start.year + s.n * s.ammount) s.start.month
          s.start.day s.start.tod hm1 hm2 hover (by omega)
      unfold Yearly.getCandidate
      rw [hres]
      by_cases h12 : s.start.month = 12
      · rw [if_pos h12]
        rw [h12] at hover hdimT
        simp only
        rw [if_pos (by omega)]
        unfold GoTime.addDate
        simp only
        have hday0 : s.start.day -
            dim (isLeap (s.start.year + s.n * s.ammount)) 12 +
            -(s.start.day -
              dim (isLeap (s.start.year + s.n * s.ammount)) 12) = 0 := by ring
        rw [add_zero, add_zero, hday0]
        rw [dateNorm_day0 (s.start.year + s.n * s.ammount + 1) 1 s.start.tod
          (by norm_num) (by norm_num)]
        rw [if_pos rfl]
        have hy : s.start.year + s.n * s.ammount + 1 - 1 =
            s.start.year + s.n * s.ammount := by ring
        rw [hy, h12]
      · rw [if_neg h12]
        simp only
        rw [if_pos (by omega)]
        unfold GoTime.addDate
        simp only
        have hday0 : s.start.day -
            dim (isLeap (s.start.year + s.n * s.ammount)) s.start.month +
            -(s.start.day -
              dim (isLeap (s.start.year + s.n * s.ammount)) s.start.month) =
            0 := by ring
        rw [add_zero, add_zero, hday0]
        rw [dateNorm_day0 (s.start.year + s.n * s.ammount) (s.start.month + 1)
          s.start.tod (by omega) (by omega)]
        rw [if_neg (by omega)]
        have hmm : s.start.month + 1 - 1 = s.start.month := by ring
        rw [hmm]
    · intro hfits
      have hres : s.start.addDate (s.n * s.ammount) 0 0 =
          ⟨s.start.year + s.n * s.ammount, s.start.month, s.start.day,
            s.start.tod⟩ := by
        unfold GoTime.addDate
        rw [add_zero, add_zero]
        exact dateNorm_valid (s.start.year + s.n * s.ammount) s.start.month
          s.start.day s.start.tod hm1 hm2 hd1 hfits
      unfold Yearly.getCandidate
      rw [hres]
      rw [if_neg (by simp)]

/-- Witness for C2's general clamping statements: the monthly
Jan-31-2023 anchor at index 1 clamps to the last day of February 2023,
and the yearly Feb-29-2024 anchor at index 1 clamps to the last day of
February 2025. -/
theorem c2_day_clamping_witness :
    Monthly.getCandidate ⟨mkTime 2023 1 31, mkTime 1 1 1, true, 1, 1⟩ =
      ⟨2023, 2, 28, 0⟩ ∧
    Yearly.getCandidate ⟨mkTime 2024 2 29, mkTime 1 1 1, true, 1, 1⟩ =
      ⟨2025, 2, 28, 0⟩ := by
  constructor
  · exact (c2_day_clamping.1 ⟨mkTime 2023 1 31, mkTime 1 1 1, true, 1, 1⟩
      2023 2 (by decide) (by decide) (by decide) (by decide) (by decide)).1
      (by decide)
  · exact (c2_day_clamping.2.1 ⟨mkTime 2024 2 29, mkTime 1 1 1, true, 1, 1⟩
      (by decide) (by decide) (by decide) (by decide)).1 (by decide)

end Chronos
